import Mathlib

/-!
Shallow embedding of the two-way Todo synchronization logic of
`scripts/sync-amplify-data.js`, together with the pieces of its execution
environment (shell-out retry wrapper, replica accessors) needed to settle
the claims about it.

Conventions of the embedding:
* A Todo record carries the five fields selected by every GraphQL
  query/mutation in the script (`id content completed createdAt updatedAt`),
  all as strings except `completed`.
* `new Date(s).getTime()` is the host runtime's date parser; it is modelled
  as a parameter `parse : String → Option Int` where `none` stands for the
  JavaScript `NaN` produced by an unparseable date string.  All comparisons
  in the script are strict `>` on the parsed values; `jsGt` reproduces the
  JavaScript semantics where any comparison against `NaN` is false.
* JavaScript `Map` built by `todos.forEach(todo => map.set(todo.id, todo))`
  is modelled as an association list with `Map.set` replace-or-append
  semantics (`mapSet`), preserving insertion order exactly as a JS `Map`
  does.
* The write side effects of the sync functions are reified into a `Plan`:
  the ordered list of accessor invocations (`createDeployedTodo`,
  `updateDeployedTodo`, `createLocalTodo`, `updateLocalTodo`) the script
  performs, each carrying the full record it is called with, in the exact
  order of the script's loops.
-/

namespace SyncAmplifyData

/-- A Todo record as listed by the script's GraphQL queries
(`id content completed createdAt updatedAt`). -/
structure Todo where
  id : String
  content : String
  completed : Bool
  createdAt : String
  updatedAt : String
  deriving DecidableEq, Repr

/-- JavaScript strict `>` on the results of `new Date(s).getTime()`:
`none` models `NaN` (unparseable date), and every comparison involving
`NaN` is false in JavaScript. -/
def jsGt : Option Int → Option Int → Bool
  | some a, some b => a > b
  | _, _ => false

/-- JavaScript `Map.prototype.set`: replace the value at an existing key in
place, otherwise append the new key at the end (insertion order). -/
def mapSet (m : List (String × Todo)) (k : String) (v : Todo) :
    List (String × Todo) :=
  if m.any (fun p => p.1 = k) then
    m.map (fun p => if p.1 = k then (k, v) else p)
  else
    m ++ [(k, v)]

/-- `todos.forEach(todo => map.set(todo.id, todo))` — build the id-keyed
lookup map the sync functions use. -/
def buildMap (todos : List Todo) : List (String × Todo) :=
  todos.foldl (fun m t => mapSet m t.id t) []

/-- `map.has(k)`. -/
def mapHas (m : List (String × Todo)) (k : String) : Bool :=
  m.any (fun p => p.1 = k)

/-- `map.get(k)` (as an `Option`; the script only calls it on present keys). -/
def mapGet (m : List (String × Todo)) (k : String) : Option Todo :=
  (m.find? (fun p => p.1 = k)).map (·.2)

/-- `[...map.keys()]` — insertion order. -/
def mapKeys (m : List (String × Todo)) : List String :=
  m.map (·.1)

/-- Which replica an accessor invocation targets: the local sandbox or the
deployed cloud environment. -/
inductive Target where
  | local_
  | deployed
  deriving DecidableEq, Repr

/-- Which accessor is invoked. -/
inductive OpKind where
  | create
  | update
  deriving DecidableEq, Repr

/-- One write invocation performed by a sync function: the accessor called
(`createLocalTodo` / `createDeployedTodo` / `updateLocalTodo` /
`updateDeployedTodo`) together with the full record passed to it. -/
structure Op where
  target : Target
  kind : OpKind
  record : Todo
  deriving DecidableEq, Repr

/-- The plan of write invocations performed by `syncTwoWay` (lines 792–853),
in the script's execution order: first the common-id loop, then the
local-only loop (creates on deployed), then the deployed-only loop (creates
on local).  `parse` stands for `new Date(·).getTime()`. -/
def syncTwoWayPlan (parse : String → Option Int)
    (localTodos deployedTodos : List Todo) : List Op :=
  let localTodosMap := buildMap localTodos
  let deployedTodosMap := buildMap deployedTodos
  let commonTodoIds :=
    (mapKeys localTodosMap).filter (fun id => mapHas deployedTodosMap id)
  let commonOps := commonTodoIds.filterMap (fun id =>
    match mapGet localTodosMap id, mapGet deployedTodosMap id with
    | some localTodo, some deployedTodo =>
      if jsGt (parse localTodo.updatedAt) (parse deployedTodo.updatedAt) then
        some ⟨Target.deployed, OpKind.update, localTodo⟩
      else if jsGt (parse deployedTodo.updatedAt) (parse localTodo.updatedAt) then
        some ⟨Target.local_, OpKind.update, deployedTodo⟩
      else
        none
    | _, _ => none)
  let localOnlyTodoIds :=
    (mapKeys localTodosMap).filter (fun id => ¬ mapHas deployedTodosMap id)
  let localOnlyOps := localOnlyTodoIds.filterMap (fun id =>
    (mapGet localTodosMap id).map
      (fun t => ⟨Target.deployed, OpKind.create, t⟩))
  let deployedOnlyTodoIds :=
    (mapKeys deployedTodosMap).filter (fun id => ¬ mapHas localTodosMap id)
  let deployedOnlyOps := deployedOnlyTodoIds.filterMap (fun id =>
    (mapGet deployedTodosMap id).map
      (fun t => ⟨Target.local_, OpKind.create, t⟩))
  commonOps ++ localOnlyOps ++ deployedOnlyOps

/-- The plan of write invocations performed by `syncLocalToDeployed`
(lines 698–740): one pass over the local todos; common-and-newer ids update
the deployed record, absent ids create it, everything else is skipped. -/
def syncLocalToDeployedPlan (parse : String → Option Int)
    (localTodos deployedTodos : List Todo) : List Op :=
  let deployedTodosMap := buildMap deployedTodos
  localTodos.filterMap (fun localTodo =>
    match mapGet deployedTodosMap localTodo.id with
    | some deployedTodo =>
      if jsGt (parse localTodo.updatedAt) (parse deployedTodo.updatedAt) then
        some ⟨Target.deployed, OpKind.update, localTodo⟩
      else
        none
    | none => some ⟨Target.deployed, OpKind.create, localTodo⟩)

/-- The plan of write invocations performed by `syncDeployedToLocal`
(lines 745–787), symmetric to `syncLocalToDeployedPlan`. -/
def syncDeployedToLocalPlan (parse : String → Option Int)
    (localTodos deployedTodos : List Todo) : List Op :=
  let localTodosMap := buildMap localTodos
  deployedTodos.filterMap (fun deployedTodo =>
    match mapGet localTodosMap deployedTodo.id with
    | some localTodo =>
      if jsGt (parse deployedTodo.updatedAt) (parse localTodo.updatedAt) then
        some ⟨Target.local_, OpKind.update, deployedTodo⟩
      else
        none
    | none => some ⟨Target.local_, OpKind.create, deployedTodo⟩)

/-- A JSON scalar as it appears in the mutation `variables.input` objects
the script serializes. -/
inductive JVal where
  | str (s : String)
  | bool (b : Bool)
  deriving DecidableEq, Repr

/-- The `variables.input` object built by `createDeployedTodo`
(lines 374–384) and identically by `createLocalTodo` (lines 429–439):
`content` and `completed` always, plus `id` when `todo.id` is truthy
(a non-empty string). -/
def createTodoInput (todo : Todo) : List (String × JVal) :=
  let base := [("content", JVal.str todo.content),
               ("completed", JVal.bool todo.completed)]
  if todo.id ≠ "" then base ++ [("id", JVal.str todo.id)] else base

/-- The `variables.input` object built by `updateDeployedTodo`
(lines 496–502): exactly `id`, `content`, `completed`. -/
def updateDeployedTodoInput (todo : Todo) : List (String × JVal) :=
  [("id", JVal.str todo.id),
   ("content", JVal.str todo.content),
   ("completed", JVal.bool todo.completed)]

/-- The `variables.input` object built by `updateLocalTodo`
(lines 547–553): exactly `id`, `content`, `completed`. -/
def updateLocalTodoInput (todo : Todo) : List (String × JVal) :=
  [("id", JVal.str todo.id),
   ("content", JVal.str todo.content),
   ("completed", JVal.bool todo.completed)]

/-- Field names of a serialized input object. -/
def fieldNames (input : List (String × JVal)) : List String :=
  input.map (·.1)

/-!
### The `execute` shell-out wrapper (lines 69–112)

`execute(command, options)` runs `execSync` and on failure retries while
`retries < maxRetries && !options.noRetry`, sleeping `retryDelay/1000`
seconds before each retry; after the retries are exhausted it either
returns `null` (`options.ignoreError`), returns `null` after logging
(`options.exitOnError === false`), or calls `process.exit(1)`.

The outcome of the `k`-th underlying `execSync` invocation (whether it
throws) is abstracted as `attempts k : Bool` (`true` = success).
-/

/-- The options of `execute` that influence its control flow.
`maxRetries`/`retryDelay` model `options.maxRetries || 3` and
`options.retryDelay || 1000`: absent (or the falsy `0`) falls back to the
default. -/
structure ExecOptions where
  maxRetries : Option Nat := none
  retryDelay : Option Nat := none
  noRetry : Bool := false
  ignoreError : Bool := false
  exitOnErrorFalse : Bool := false
  deriving DecidableEq, Repr

/-- `options.maxRetries || 3` (JavaScript `||`: `0` is falsy). -/
def ExecOptions.effMaxRetries (o : ExecOptions) : Nat :=
  match o.maxRetries with
  | some n => if n = 0 then 3 else n
  | none => 3

/-- `options.retryDelay || 1000` milliseconds. -/
def ExecOptions.effRetryDelay (o : ExecOptions) : Nat :=
  match o.retryDelay with
  | some n => if n = 0 then 1000 else n
  | none => 1000

/-- How an `execute` call ends: the command eventually succeeded, the
failure was swallowed and `null` returned, or `process.exit(1)` was
reached.  Each constructor records the total number of `execSync`
invocations made. -/
inductive ExecResult where
  | ok (attemptsUsed : Nat)
  | nullResult (attemptsUsed : Nat)
  | exited (attemptsUsed : Nat)
  deriving DecidableEq, Repr

/-- The retry loop of `execute` (`executeWithRetry`): `remaining` is
`maxRetries - retries`, `idx` the index of the attempt about to run.
Returns whether the command eventually succeeded and the number of
attempts used. -/
def executeAttempts (attempts : Nat → Bool) (noRetry : Bool) :
    Nat → Nat → Bool × Nat
  | remaining, idx =>
    if attempts idx then (true, idx + 1)
    else
      match remaining with
      | 0 => (false, idx + 1)
      | r + 1 => if noRetry then (false, idx + 1)
                 else executeAttempts attempts noRetry r (idx + 1)

/-- `execute(command, options)` with the attempt outcomes abstracted:
retries up to `effMaxRetries` further attempts, then applies the
`ignoreError` / `exitOnError` policy from lines 100–107. -/
def execute (o : ExecOptions) (attempts : Nat → Bool) : ExecResult :=
  match executeAttempts attempts o.noRetry o.effMaxRetries 0 with
  | (true, n) => ExecResult.ok n
  | (false, n) =>
    if o.ignoreError then ExecResult.nullResult n
    else if o.exitOnErrorFalse then ExecResult.nullResult n
    else ExecResult.exited n

/-!
### List accessors and their failure handling

`listLocalTodos` (lines 294–355) and `listDeployedTodos` (lines 263–289)
both swallow every failure: a non-running sandbox, a failed `curl`
(invoked with `ignoreError: true`), an unparseable response or any thrown
error all produce the empty list `[]` — never an abort.  The underlying
fetch outcome is abstracted as `Option (List Todo)` (`none` = the
transport failed / the replica is unreachable).
-/

/-- `listLocalTodos`: on any fetch failure it logs a warning or error and
returns `[]` (lines 297–300, 339–342, 351–354). -/
def listLocalTodos (fetched : Option (List Todo)) : List Todo :=
  fetched.getD []

/-- `listDeployedTodos`: on any failure it returns `[]`
(lines 283–288). -/
def listDeployedTodos (fetched : Option (List Todo)) : List Todo :=
  fetched.getD []

/-- The plan computed by a `two-way` run given the raw fetch outcomes of
the two list calls: `syncTwoWay` always proceeds with whatever lists the
two accessors produced. -/
def runTwoWayPlan (parse : String → Option Int)
    (localFetch deployedFetch : Option (List Todo)) : List Op :=
  syncTwoWayPlan parse (listLocalTodos localFetch)
    (listDeployedTodos deployedFetch)

/-!
### The apply phase: per-operation failure handling

Each write invocation bottoms out in a `curl` shell-out through `execute`.
The two sides configure `execute` differently:

* deployed-side writes go through `executeGraphQL` (lines 229–258), whose
  `execute` call (line 244–247) passes only `{ silent: true }` — so a
  transport failure that exhausts the retries reaches the
  `process.exit(1)` branch of `execute` (line 104) and kills the process;
* local-side writes call `execute` with `{ silent: true, ignoreError:
  true }` (e.g. lines 449–452, 563–566) — a transport failure yields
  `null`, the function logs and returns `null`, and the caller's loop
  continues;
* on either side, a transport success whose GraphQL response carries no
  data (`result.data.updateTodo` missing) is logged as a per-record
  failure and the function returns `null`; the loop continues.

The outcome of the write underlying the `i`-th operation is abstracted as
`outcome i`.
-/

/-- How the transport + GraphQL call underlying one write invocation went:
`transportFail` means the `curl` command itself failed on every retry. -/
inductive OpOutcome where
  | ok
  | graphqlFail
  | transportFail
  deriving DecidableEq, Repr

/-- What the sync loop observes for one operation. -/
inductive OpResult where
  | success
  | failedRecorded
  deriving DecidableEq, Repr

/-- Per-operation control flow: `none` means the process exits before the
loop can continue (deployed-side transport failure, line 104 of
`execute`). -/
def classifyOp (target : Target) (oc : OpOutcome) : Option OpResult :=
  match target, oc with
  | _, OpOutcome.ok => some OpResult.success
  | _, OpOutcome.graphqlFail => some OpResult.failedRecorded
  | Target.local_, OpOutcome.transportFail => some OpResult.failedRecorded
  | Target.deployed, OpOutcome.transportFail => none

/-- How a whole apply phase ends: either every operation was attempted and
the run completed, or `process.exit(1)` cut it short.  Both record, in
order, the per-record results observed before the end. -/
inductive RunOutcome where
  | completed (results : List (String × OpResult))
  | exited (results : List (String × OpResult))
  deriving DecidableEq, Repr

/-- Execute the operations of a plan in order, with the outcome of the
`i`-th write given by `outcome (idx + i)`. -/
def applyOps (outcome : Nat → OpOutcome) : Nat → List Op → RunOutcome
  | _, [] => RunOutcome.completed []
  | idx, op :: rest =>
    match classifyOp op.target (outcome idx) with
    | none => RunOutcome.exited []
    | some r =>
      match applyOps outcome (idx + 1) rest with
      | RunOutcome.completed rs =>
          RunOutcome.completed ((op.record.id, r) :: rs)
      | RunOutcome.exited rs =>
          RunOutcome.exited ((op.record.id, r) :: rs)

/-!
### Faithful replica accessors

Modelled from the spec: the Replica Accessor interface of §6 (`list`,
`create`, `update`) is implemented by the managed GraphQL backend, which
is not part of this repository.  Its write semantics is modelled as:
`create` inserts a record built from the transmitted input fields and
stamps `createdAt`/`updatedAt` with the replica's own clock; `update`
rewrites the `content`/`completed` of the record with the transmitted
`id` and stamps `updatedAt` with the replica's own clock.  The transmitted
input of the script's mutations carries only `id`/`content`/`completed`
(see `createTodoInput` / `updateDeployedTodoInput`), so the stored
timestamps are necessarily the replica's own.
-/

/-- Accessor `create` against a replica state: append a record holding the
transmitted `id` (or a backend-generated `freshId` when the input carried
none, i.e. the source id was empty), `content` and `completed`, with both
timestamps set by the replica's clock. -/
def backendCreate (clock freshId : String) (st : List Todo) (todo : Todo) :
    List Todo :=
  st ++ [{ id := if todo.id = "" then freshId else todo.id,
           content := todo.content,
           completed := todo.completed,
           createdAt := clock,
           updatedAt := clock }]

/-- Accessor `update` against a replica state: rewrite `content` and
`completed` of the record whose id matches the transmitted `id`, with
`updatedAt` set by the replica's clock (the input carries no
timestamp). -/
def backendUpdate (clock : String) (st : List Todo) (todo : Todo) :
    List Todo :=
  st.map (fun r =>
    if r.id = todo.id then
      { id := r.id, content := todo.content, completed := todo.completed,
        createdAt := r.createdAt, updatedAt := clock }
    else r)

/-- Apply one operation of a plan to the pair of replica states
(local, deployed). -/
def applyOp (clock freshId : String) (st : List Todo × List Todo)
    (op : Op) : List Todo × List Todo :=
  match op.target, op.kind with
  | Target.local_, OpKind.create =>
      (backendCreate clock freshId st.1 op.record, st.2)
  | Target.local_, OpKind.update =>
      (backendUpdate clock st.1 op.record, st.2)
  | Target.deployed, OpKind.create =>
      (st.1, backendCreate clock freshId st.2 op.record)
  | Target.deployed, OpKind.update =>
      (st.1, backendUpdate clock st.2 op.record)

/-- Apply a plan in order against the faithful accessors; the `i`-th
operation is served at clock value `clock (idx + i)` (the target replica's
own write time). -/
def applyPlan (clock freshId : Nat → String) :
    Nat → List Op → List Todo × List Todo → List Todo × List Todo
  | _, [], st => st
  | idx, op :: rest, st =>
      applyPlan clock freshId (idx + 1) rest
        (applyOp (clock idx) (freshId idx) st op)

/-- Total number of `execSync` invocations an `execute` call made. -/
def ExecResult.attemptsUsed : ExecResult → Nat
  | ExecResult.ok n => n
  | ExecResult.nullResult n => n
  | ExecResult.exited n => n

/-- The sleeps performed by the retry loop of `execute`: before every retry
the script runs `sleep ${retryDelay / 1000}` (line 98), i.e. one delay of
`effRetryDelay` milliseconds between consecutive attempts. -/
def executeSleepsLoop (attempts : Nat → Bool) (noRetry : Bool)
    (delay : Nat) : Nat → Nat → List Nat
  | remaining, idx =>
    if attempts idx then []
    else
      match remaining with
      | 0 => []
      | r + 1 =>
        if noRetry then []
        else delay :: executeSleepsLoop attempts noRetry delay r (idx + 1)

/-- All inter-attempt delays (in milliseconds) of an `execute` call. -/
def executeSleeps (o : ExecOptions) (attempts : Nat → Bool) : List Nat :=
  executeSleepsLoop attempts o.noRetry o.effRetryDelay o.effMaxRetries 0

/-- The per-operation results the apply loop records when no operation
kills the process: each operation's entry is determined by its own outcome
alone. -/
def expectedResults (outcome : Nat → OpOutcome) :
    Nat → List Op → List (String × OpResult)
  | _, [] => []
  | idx, op :: rest =>
    (op.record.id,
      match classifyOp op.target (outcome idx) with
      | some r => r
      | none => OpResult.failedRecorded)
      :: expectedResults outcome (idx + 1) rest

/-!
### Concrete fixtures used by witnesses and counterexamples
-/

/-- A concrete stand-in for `new Date(·).getTime()` on three well-formed
timestamps; everything else is `NaN`. -/
def sampleParse : String → Option Int := fun s =>
  if s = "t1" then some 1
  else if s = "t2" then some 2
  else if s = "t3" then some 3
  else none

/-- A local record with id `"1"`, newer than its deployed counterpart. -/
def todoL1 : Todo := ⟨"1", "x", false, "c", "t2"⟩

/-- The deployed record with id `"1"`, older than the local one. -/
def todoD1 : Todo := ⟨"1", "y", true, "c", "t1"⟩

/-- A record that exists only on the local side. -/
def todoOnlyA : Todo := ⟨"x", "hello", false, "c0", "t1"⟩

/-- A deployed record sharing id and `updatedAt` with `todoL1` while its
other fields differ. -/
def todoD1sameStamp : Todo := ⟨"1", "y", true, "c2", "t2"⟩

/-- The deployed copy of the record whose local copy has an unparseable
timestamp. -/
def todoD1bad : Todo := ⟨"bad", "z", true, "c", "t1"⟩

/-- Per-operation outcomes for the partial-failure scenario: the first
write fails at the GraphQL level, the rest succeed. -/
def sampleOutcome : Nat → OpOutcome := fun k =>
  if k = 0 then OpOutcome.graphqlFail else OpOutcome.ok

/-- Attempt outcomes of a shell command that fails twice, then succeeds. -/
def sampleAttempts : Nat → Bool := fun k => k == 2

/-- A record whose `updatedAt` does not parse as a timestamp. -/
def todoBadStamp : Todo := ⟨"bad", "hello", false, "c0", "not-a-date"⟩

/-- Proof-layer normal form of `syncTwoWayPlan` for replicas with unique
ids: the JS `Map` operations replaced by direct list searches. -/
def twoWayPlanN (parse : String → Option Int) (A B : List Todo) :
    List Op :=
  ((A.map Todo.id).filter (fun i => B.any (fun t => t.id = i))).filterMap
      (fun i =>
        match A.find? (fun t => t.id = i), B.find? (fun t => t.id = i) with
        | some lt, some dt =>
          if jsGt (parse lt.updatedAt) (parse dt.updatedAt) then
            some ⟨Target.deployed, OpKind.update, lt⟩
          else if jsGt (parse dt.updatedAt) (parse lt.updatedAt) then
            some ⟨Target.local_, OpKind.update, dt⟩
          else none
        | _, _ => none)
    ++ ((A.map Todo.id).filter (fun i => ¬ B.any (fun t => t.id = i))).filterMap
      (fun i => (A.find? (fun t => t.id = i)).map
        (fun t => ⟨Target.deployed, OpKind.create, t⟩))
    ++ ((B.map Todo.id).filter (fun i => ¬ A.any (fun t => t.id = i))).filterMap
      (fun i => (B.find? (fun t => t.id = i)).map
        (fun t => ⟨Target.local_, OpKind.create, t⟩))

/-!
### Lemmas about the JS `Map` embedding

Each replica's collection has unique ids (spec §3: "Within one replica,
`id` is unique"), under which the JS `Map` built by the script is simply
the list of `(id, record)` pairs in list order.
-/

theorem foldl_mapSet_eq (l : List Todo) :
    ∀ acc : List (String × Todo),
      (l.map Todo.id).Nodup →
      (∀ t ∈ l, ∀ p ∈ acc, p.1 ≠ t.id) →
      l.foldl (fun m t => mapSet m t.id t) acc
        = acc ++ l.map (fun t => (t.id, t)) := by
  induction l with
  | nil => intro acc _ _; simp
  | cons t l ih =>
    intro acc hnd hdisj
    have hany : acc.any (fun p => p.1 = t.id) = false := by
      rw [List.any_eq_false]
      intro p hp
      simpa using hdisj t (by simp) p hp
    have hset : mapSet acc t.id t = acc ++ [(t.id, t)] := by
      unfold mapSet
      simp [hany]
    have hpair : (∀ x ∈ l, ¬ x.id = t.id) ∧ (l.map Todo.id).Nodup := by
      simpa using hnd
    have hnd' : (l.map Todo.id).Nodup := hpair.2
    have hdisj' : ∀ u ∈ l, ∀ p ∈ acc ++ [(t.id, t)], p.1 ≠ u.id := by
      intro u hu p hp
      rcases List.mem_append.mp hp with h | h
      · exact hdisj u (by simp [hu]) p h
      · have : p = (t.id, t) := by simpa using h
        subst this
        exact fun hcontra => hpair.1 u hu hcontra.symm
    calc (t :: l).foldl (fun m u => mapSet m u.id u) acc
        = l.foldl (fun m u => mapSet m u.id u) (mapSet acc t.id t) := by
          simp [List.foldl_cons]
      _ = (acc ++ [(t.id, t)]) ++ l.map (fun u => (u.id, u)) := by
          rw [hset]; exact ih _ hnd' hdisj'
      _ = acc ++ (t :: l).map (fun u => (u.id, u)) := by simp

theorem buildMap_eq (l : List Todo) (h : (l.map Todo.id).Nodup) :
    buildMap l = l.map (fun t => (t.id, t)) := by
  simpa using foldl_mapSet_eq l [] h (by simp)

theorem mapKeys_buildMap (l : List Todo) (h : (l.map Todo.id).Nodup) :
    mapKeys (buildMap l) = l.map Todo.id := by
  simp [mapKeys, buildMap_eq l h]

theorem any_pairing (l : List Todo) (k : String) :
    (l.map (fun t => (t.id, t))).any (fun p => p.1 = k)
      = l.any (fun t => t.id = k) := by
  induction l with
  | nil => rfl
  | cons t l ih => simp [ih]

theorem find?_pairing (l : List Todo) (k : String) :
    ((l.map (fun t => (t.id, t))).find? (fun p => p.1 = k)).map (·.2)
      = l.find? (fun t => t.id = k) := by
  induction l with
  | nil => rfl
  | cons t l ih =>
    rw [List.map_cons, List.find?_cons, List.find?_cons]
    by_cases h : t.id = k
    · simp [h]
    · have h1 : (decide ((t.id, t).1 = k)) = false := by simpa using h
      rw [h1]
      exact ih

theorem mapHas_buildMap (l : List Todo) (h : (l.map Todo.id).Nodup)
    (k : String) : mapHas (buildMap l) k = l.any (fun t => t.id = k) := by
  rw [mapHas, buildMap_eq l h]
  exact any_pairing l k

theorem mapGet_buildMap (l : List Todo) (h : (l.map Todo.id).Nodup)
    (k : String) :
    mapGet (buildMap l) k = l.find? (fun t => t.id = k) := by
  rw [mapGet, buildMap_eq l h]
  exact find?_pairing l k

theorem find?_id_eq_some_of_mem (l : List Todo)
    (h : (l.map Todo.id).Nodup) (a : Todo) (ha : a ∈ l) :
    l.find? (fun t => t.id = a.id) = some a := by
  induction l with
  | nil => cases ha
  | cons b l ih =>
    have hpair : (∀ x ∈ l, ¬ x.id = b.id) ∧ (l.map Todo.id).Nodup := by
      simpa using h
    by_cases hba : b.id = a.id
    · have : a = b := by
        rcases List.mem_cons.mp ha with h' | h'
        · exact h'
        · exact absurd hba.symm (hpair.1 a h')
      subst this
      simp [List.find?_cons, hba]
    · have ha' : a ∈ l := by
        rcases List.mem_cons.mp ha with h' | h'
        · exact absurd (congrArg Todo.id h'.symm) hba
        · exact h'
      have := ih hpair.2 ha'
      simp [List.find?_cons, hba, this]

theorem find?_id_mem_and_id (l : List Todo) (k : String) (a : Todo)
    (h : l.find? (fun t => t.id = k) = some a) : a ∈ l ∧ a.id = k := by
  refine ⟨List.mem_of_find?_eq_some h, ?_⟩
  have := List.find?_some h
  simpa using this

theorem find?_id_isSome_iff (l : List Todo) (k : String) :
    (l.find? (fun t => t.id = k)).isSome ↔ ∃ a ∈ l, a.id = k := by
  rw [List.find?_isSome]
  constructor
  · rintro ⟨a, ha, hk⟩; exact ⟨a, ha, by simpa using hk⟩
  · rintro ⟨a, ha, hk⟩; exact ⟨a, ha, by simpa using hk⟩

/-!
### Characterizing the two-way plan per record id
-/

/-- The write invocations of a plan that concern a given record id. -/
def opsFor (ops : List Op) (a : String) : List Op :=
  ops.filter (fun op => op.record.id = a)

theorem opsFor_append (x y : List Op) (a : String) :
    opsFor (x ++ y) a = opsFor x a ++ opsFor y a := by
  simp [opsFor, List.filter_append]

theorem filter_id_eq_of_nodup (l : List String) (h : l.Nodup) (a : String) :
    l.filter (fun i => i = a) = if a ∈ l then [a] else [] := by
  induction l with
  | nil => simp
  | cons b l ih =>
    have hpair : b ∉ l ∧ l.Nodup := List.nodup_cons.mp h
    by_cases hba : b = a
    · subst hba
      have hnil : l.filter (fun i => i = b) = [] := by
        rw [List.filter_eq_nil_iff]
        intro x hx
        simp only [decide_eq_true_eq]
        exact fun hxb => hpair.1 (hxb ▸ hx)
      simp [List.filter_cons, hnil]
    · rw [List.filter_cons]
      have hmem : (a ∈ b :: l) ↔ (a ∈ l) := by
        constructor
        · intro h'
          rcases List.mem_cons.mp h' with h'' | h''
          · exact absurd h''.symm hba
          · exact h''
        · exact fun h' => List.mem_cons_of_mem b h'
      simp [hba, ih hpair.2, hmem]

theorem opsFor_filterMap (ids : List String) (g : String → Option Op)
    (a : String) (hg : ∀ i op, g i = some op → op.record.id = i) :
    opsFor (ids.filterMap g) a = (ids.filter (fun i => i = a)).filterMap g := by
  induction ids with
  | nil => rfl
  | cons i ids ih =>
    rw [List.filterMap_cons, List.filter_cons]
    by_cases hia : i = a
    · subst hia
      cases hgi : g i with
      | none => simp [List.filterMap_cons, hgi, ih]
      | some op =>
        have hid := hg i op hgi
        have ih' : (List.filterMap g ids).filter
              (fun op => op.record.id = i)
            = (ids.filter (fun j => j = i)).filterMap g := ih
        simp [opsFor, List.filter_cons, hid, List.filterMap_cons, hgi, ih']
    · cases hgi : g i with
      | none => simp [hia, ih]
      | some op =>
        have hid := hg i op hgi
        have ih' : (List.filterMap g ids).filter
              (fun op => op.record.id = a)
            = (ids.filter (fun j => j = a)).filterMap g := ih
        simp [opsFor, List.filter_cons, hid, hia, ih']

theorem syncTwoWayPlan_eqN (parse : String → Option Int) (A B : List Todo)
    (hA : (A.map Todo.id).Nodup) (hB : (B.map Todo.id).Nodup) :
    syncTwoWayPlan parse A B = twoWayPlanN parse A B := by
  simp only [syncTwoWayPlan, twoWayPlanN, mapKeys_buildMap A hA,
    mapKeys_buildMap B hB, mapHas_buildMap A hA, mapHas_buildMap B hB,
    mapGet_buildMap A hA, mapGet_buildMap B hB]

theorem opsFor_commonPiece (parse : String → Option Int) (A B : List Todo)
    (hA : (A.map Todo.id).Nodup) (hB : (B.map Todo.id).Nodup) (a : String) :
    opsFor (((A.map Todo.id).filter
        (fun i => B.any (fun t => t.id = i))).filterMap
      (fun i =>
        match A.find? (fun t => t.id = i), B.find? (fun t => t.id = i) with
        | some lt, some dt =>
          if jsGt (parse lt.updatedAt) (parse dt.updatedAt) then
            some ⟨Target.deployed, OpKind.update, lt⟩
          else if jsGt (parse dt.updatedAt) (parse lt.updatedAt) then
            some ⟨Target.local_, OpKind.update, dt⟩
          else none
        | _, _ => none)) a
    = match A.find? (fun t => t.id = a), B.find? (fun t => t.id = a) with
      | some la, some da =>
        if jsGt (parse la.updatedAt) (parse da.updatedAt) then
          [⟨Target.deployed, OpKind.update, la⟩]
        else if jsGt (parse da.updatedAt) (parse la.updatedAt) then
          [⟨Target.local_, OpKind.update, da⟩]
        else []
      | _, _ => [] := by
  have hg : ∀ i op,
      ((match A.find? (fun t => t.id = i), B.find? (fun t => t.id = i) with
        | some lt, some dt =>
          if jsGt (parse lt.updatedAt) (parse dt.updatedAt) then
            some ⟨Target.deployed, OpKind.update, lt⟩
          else if jsGt (parse dt.updatedAt) (parse lt.updatedAt) then
            some ⟨Target.local_, OpKind.update, dt⟩
          else none
        | _, _ => none : Option Op)) = some op → op.record.id = i := by
    intro i op hop
    rcases h1 : A.find? (fun t => t.id = i) with _ | lt <;>
      rcases h2 : B.find? (fun t => t.id = i) with _ | dt <;>
      rw [h1, h2] at hop
    · cases hop
    · cases hop
    · cases hop
    · dsimp only at hop
      split_ifs at hop with hlt hdt
      · cases hop; exact (find?_id_mem_and_id A i lt h1).2
      · cases hop; exact (find?_id_mem_and_id B i dt h2).2
  rw [opsFor_filterMap _ _ _ hg,
    filter_id_eq_of_nodup _ (hA.filter _) a]
  by_cases hmem : a ∈ (A.map Todo.id).filter (fun i => B.any (fun t => t.id = i))
  · rw [if_pos hmem]
    have hsplit := List.mem_filter.mp hmem
    obtain ⟨la, hla, hla2⟩ := List.mem_map.mp hsplit.1
    obtain ⟨da, hda, hda2⟩ : ∃ t ∈ B, t.id = a := by
      have := hsplit.2
      rw [List.any_eq_true] at this
      obtain ⟨t, ht, ht2⟩ := this
      exact ⟨t, ht, by simpa using ht2⟩
    have h1 : A.find? (fun t => t.id = a) = some la := by
      have := find?_id_eq_some_of_mem A hA la hla
      rwa [hla2] at this
    have h2 : B.find? (fun t => t.id = a) = some da := by
      have := find?_id_eq_some_of_mem B hB da hda
      rwa [hda2] at this
    rw [h1, h2]
    simp only [List.filterMap_cons, List.filterMap_nil, h1, h2]
    split_ifs <;> rfl
  · rw [if_neg hmem]
    rcases h1 : A.find? (fun t => t.id = a) with _ | la <;>
      rcases h2 : B.find? (fun t => t.id = a) with _ | da <;>
      rw [h1, h2]
    · rfl
    · rfl
    · rfl
    · exfalso
      apply hmem
      rw [List.mem_filter]
      constructor
      · obtain ⟨hmla, hidla⟩ := find?_id_mem_and_id A a la h1
        exact List.mem_map.mpr ⟨la, hmla, hidla⟩
      · obtain ⟨hmda, hidda⟩ := find?_id_mem_and_id B a da h2
        rw [List.any_eq_true]
        exact ⟨da, hmda, by simpa using hidda⟩

theorem opsFor_onlyPiece (A B : List Todo) (hA : (A.map Todo.id).Nodup)
    (a : String) (mk : Todo → Op) (hmk : ∀ t, (mk t).record = t) :
    opsFor (((A.map Todo.id).filter
        (fun i => ¬ B.any (fun t => t.id = i))).filterMap
      (fun i => (A.find? (fun t => t.id = i)).map mk)) a
    = match A.find? (fun t => t.id = a), B.find? (fun t => t.id = a) with
      | some la, none => [mk la]
      | _, _ => [] := by
  have hg : ∀ i op, (A.find? (fun t => t.id = i)).map mk = some op →
      op.record.id = i := by
    intro i op hop
    rcases h1 : A.find? (fun t => t.id = i) with _ | lt <;> rw [h1] at hop
    · cases hop
    · cases hop
      rw [hmk]
      exact (find?_id_mem_and_id A i lt h1).2
  rw [opsFor_filterMap _ _ _ hg,
    filter_id_eq_of_nodup _ (hA.filter _) a]
  by_cases hmem : a ∈ (A.map Todo.id).filter (fun i => ¬ B.any (fun t => t.id = i))
  · rw [if_pos hmem]
    have hsplit := List.mem_filter.mp hmem
    obtain ⟨la, hla, hla2⟩ := List.mem_map.mp hsplit.1
    have h1 : A.find? (fun t => t.id = a) = some la := by
      have := find?_id_eq_some_of_mem A hA la hla
      rwa [hla2] at this
    have hno : ∀ t ∈ B, ¬ t.id = a := by
      have := hsplit.2
      simp only [List.any_eq_true, decide_eq_true_eq] at this
      push_neg at this
      simpa using this
    have h2 : B.find? (fun t => t.id = a) = none := by
      rw [List.find?_eq_none]
      intro t ht
      simpa using hno t ht
    rw [h1, h2]
    simp only [List.filterMap_cons, List.filterMap_nil, h1]
    rfl
  · rw [if_neg hmem]
    rcases h1 : A.find? (fun t => t.id = a) with _ | la <;>
      rcases h2 : B.find? (fun t => t.id = a) with _ | da <;>
      rw [h1, h2]
    · rfl
    · rfl
    · exfalso
      apply hmem
      rw [List.mem_filter]
      obtain ⟨hmla, hidla⟩ := find?_id_mem_and_id A a la h1
      refine ⟨List.mem_map.mpr ⟨la, hmla, hidla⟩, ?_⟩
      have hnone := List.find?_eq_none.mp h2
      simp only [List.any_eq_true, decide_eq_true_eq]
      simp only [decide_eq_true_eq] at hnone
      simp only [decide_eq_true_eq, not_exists]
      push_neg
      intro t ht
      exact hnone t ht
    · rfl

/-- What the two-way sync does for one record id, under the spec invariant
that ids are unique within each replica (§3): exactly the LWW
classification of §4.1, with `NaN` timestamps producing no write for
common ids. -/
theorem opsFor_syncTwoWayPlan (parse : String → Option Int)
    (A B : List Todo) (hA : (A.map Todo.id).Nodup)
    (hB : (B.map Todo.id).Nodup) (a : String) :
    opsFor (syncTwoWayPlan parse A B) a =
      match A.find? (fun t => t.id = a), B.find? (fun t => t.id = a) with
      | some la, some da =>
        if jsGt (parse la.updatedAt) (parse da.updatedAt) then
          [⟨Target.deployed, OpKind.update, la⟩]
        else if jsGt (parse da.updatedAt) (parse la.updatedAt) then
          [⟨Target.local_, OpKind.update, da⟩]
        else []
      | some la, none => [⟨Target.deployed, OpKind.create, la⟩]
      | none, some da => [⟨Target.local_, OpKind.create, da⟩]
      | none, none => [] := by
  rw [syncTwoWayPlan_eqN parse A B hA hB, twoWayPlanN,
    opsFor_append, opsFor_append,
    opsFor_commonPiece parse A B hA hB a,
    opsFor_onlyPiece A B hA a (fun t => ⟨Target.deployed, OpKind.create, t⟩)
      (fun _ => rfl)]
  have hBA := opsFor_onlyPiece B A hB a
      (fun t => ⟨Target.local_, OpKind.create, t⟩) (fun _ => rfl)
  rw [hBA]
  rcases h1 : A.find? (fun t => t.id = a) with _ | la <;>
    rcases h2 : B.find? (fun t => t.id = a) with _ | da <;>
    simp [h1, h2]

/-!
### Tracking records through the apply phase
-/

theorem filter_singleton_split {α : Type} (p : α → Bool) :
    ∀ (l : List α) (a : α), l.filter p = [a] →
      ∃ pre post, l = pre ++ a :: post ∧ pre.filter p = [] ∧
        post.filter p = [] := by
  intro l
  induction l with
  | nil => intro a h; cases h
  | cons x l ih =>
    intro a h
    rw [List.filter_cons] at h
    by_cases hx : p x = true
    · rw [if_pos hx] at h
      have hxa : x = a := by
        have := List.cons.injEq x (l.filter p) a [] ▸ h
        exact (List.cons.inj h).1
      have hnil : l.filter p = [] := (List.cons.inj h).2
      exact ⟨[], l, by simp [hxa], rfl, hnil⟩
    · rw [if_neg hx] at h
      obtain ⟨pre, post, hsplit, hpre, hpost⟩ := ih a h
      refine ⟨x :: pre, post, by simp [hsplit], ?_, hpost⟩
      rw [List.filter_cons, if_neg hx, hpre]

theorem applyPlan_append (clock fresh : Nat → String) (xs : List Op) :
    ∀ (ys : List Op) (idx : Nat) (st : List Todo × List Todo),
      applyPlan clock fresh idx (xs ++ ys) st
        = applyPlan clock fresh (idx + xs.length) ys
            (applyPlan clock fresh idx xs st) := by
  induction xs with
  | nil => intro ys idx st; simp [applyPlan]
  | cons op xs ih =>
    intro ys idx st
    rw [List.cons_append]
    show applyPlan clock fresh (idx + 1) (xs ++ ys) _ = _
    rw [ih ys (idx + 1) _]
    have : idx + 1 + xs.length = idx + (op :: xs).length := by
      simp [List.length_cons]; omega
    rw [this]
    rfl

theorem mem_fst_applyPlan (clock fresh : Nat → String) :
    ∀ (ops : List Op) (idx : Nat) (st : List Todo × List Todo) (r : Todo),
      r ∈ st.1 →
      (∀ op ∈ ops, op.target = Target.local_ → op.kind = OpKind.update →
        op.record.id ≠ r.id) →
      r ∈ (applyPlan clock fresh idx ops st).1 := by
  intro ops
  induction ops with
  | nil => intro idx st r hr _; exact hr
  | cons op rest ih =>
    intro idx st r hr hframe
    show r ∈ (applyPlan clock fresh (idx + 1) rest
      (applyOp (clock idx) (fresh idx) st op)).1
    refine ih (idx + 1) _ r ?_ (fun o ho h1 h2 => hframe o (by simp [ho]) h1 h2)
    rcases op with ⟨tgt, knd, rec⟩
    cases tgt <;> cases knd
    · -- local create
      simp only [applyOp, backendCreate]
      exact List.mem_append_left _ hr
    · -- local update
      have hne : rec.id ≠ r.id := hframe ⟨Target.local_, OpKind.update, rec⟩
        (by simp) rfl rfl
      simp only [applyOp, backendUpdate]
      refine List.mem_map.mpr ⟨r, hr, ?_⟩
      rw [if_neg (fun h => hne h.symm)]
    · exact hr
    · exact hr

theorem mem_snd_applyPlan (clock fresh : Nat → String) :
    ∀ (ops : List Op) (idx : Nat) (st : List Todo × List Todo) (r : Todo),
      r ∈ st.2 →
      (∀ op ∈ ops, op.target = Target.deployed → op.kind = OpKind.update →
        op.record.id ≠ r.id) →
      r ∈ (applyPlan clock fresh idx ops st).2 := by
  intro ops
  induction ops with
  | nil => intro idx st r hr _; exact hr
  | cons op rest ih =>
    intro idx st r hr hframe
    show r ∈ (applyPlan clock fresh (idx + 1) rest
      (applyOp (clock idx) (fresh idx) st op)).2
    refine ih (idx + 1) _ r ?_ (fun o ho h1 h2 => hframe o (by simp [ho]) h1 h2)
    rcases op with ⟨tgt, knd, rec⟩
    cases tgt <;> cases knd
    · exact hr
    · exact hr
    · -- deployed create
      simp only [applyOp, backendCreate]
      exact List.mem_append_left _ hr
    · -- deployed update
      have hne : rec.id ≠ r.id := hframe ⟨Target.deployed, OpKind.update, rec⟩
        (by simp) rfl rfl
      simp only [applyOp, backendUpdate]
      refine List.mem_map.mpr ⟨r, hr, ?_⟩
      rw [if_neg (fun h => hne h.symm)]

theorem mem_backendUpdate (clock : String) (st : List Todo) (todo r : Todo)
    (hr : r ∈ st) (hid : r.id = todo.id) :
    ({ id := r.id, content := todo.content, completed := todo.completed,
       createdAt := r.createdAt, updatedAt := clock } : Todo)
      ∈ backendUpdate clock st todo := by
  refine List.mem_map.mpr ⟨r, hr, ?_⟩
  rw [if_pos hid]

theorem mem_backendCreate (clock freshId : String) (st : List Todo)
    (todo : Todo) :
    ({ id := if todo.id = "" then freshId else todo.id,
       content := todo.content, completed := todo.completed,
       createdAt := clock, updatedAt := clock } : Todo)
      ∈ backendCreate clock freshId st todo := by
  exact List.mem_append_right _ (by simp)

theorem not_id_of_opsFor_nil (ops : List Op) (i : String)
    (h : opsFor ops i = []) : ∀ op ∈ ops, op.record.id ≠ i := by
  intro op hop
  have := List.filter_eq_nil_iff.mp h op hop
  simpa using this

theorem mem_opsFor (ops : List Op) (i : String) (op : Op) (h1 : op ∈ ops)
    (h2 : op.record.id = i) : op ∈ opsFor ops i :=
  List.mem_filter.mpr ⟨h1, by simpa using h2⟩

theorem applyPlan_split (clock fresh : Nat → String) (pre post : List Op)
    (op : Op) (st : List Todo × List Todo) :
    applyPlan clock fresh 0 (pre ++ op :: post) st
      = applyPlan clock fresh (pre.length + 1) post
          (applyOp (clock pre.length) (fresh pre.length)
            (applyPlan clock fresh 0 pre st) op) := by
  rw [applyPlan_append]
  simp only [Nat.zero_add]
  rfl

theorem eq_of_mem_opsFor_singleton (ops : List Op) (i : String)
    (op op' : Op) (hops : opsFor ops i = [op]) (h1 : op' ∈ ops)
    (h2 : op'.record.id = i) : op' = op := by
  have := mem_opsFor ops i op' h1 h2
  rw [hops] at this
  simpa using this

theorem jsGt_asymm (x y : Option Int) (h : jsGt x y = true) :
    jsGt y x = false := by
  rcases x with _ | a <;> rcases y with _ | b <;> simp [jsGt] at h ⊢
  omega

/-- After the two-way plan is applied against the faithful accessors, every
id present in either replica is present in both, and — when every common id
has a strict LWW winner — the two copies agree on `content` and
`completed`.  (They do not in general agree on `updatedAt`: the target
replica stamps its own clock.) -/
theorem convergedFields_after_apply
    (parse : String → Option Int) (clock fresh : Nat → String)
    (A B : List Todo)
    (hA : (A.map Todo.id).Nodup) (hB : (B.map Todo.id).Nodup)
    (hidA : ∀ t ∈ A, ¬ t.id = "") (hidB : ∀ t ∈ B, ¬ t.id = "")
    (hcomm : ∀ la ∈ A, ∀ da ∈ B, la.id = da.id →
      jsGt (parse la.updatedAt) (parse da.updatedAt) = true ∨
      jsGt (parse da.updatedAt) (parse la.updatedAt) = true)
    (i : String)
    (hi : (∃ t ∈ A, t.id = i) ∨ (∃ t ∈ B, t.id = i)) :
    ∃ a' ∈ (applyPlan clock fresh 0 (syncTwoWayPlan parse A B) (A, B)).1,
      ∃ b' ∈ (applyPlan clock fresh 0 (syncTwoWayPlan parse A B) (A, B)).2,
        a'.id = i ∧ b'.id = i ∧ a'.content = b'.content ∧
        a'.completed = b'.completed := by
  have hops := opsFor_syncTwoWayPlan parse A B hA hB i
  rcases h1 : A.find? (fun t => t.id = i) with _ | la <;>
    rcases h2 : B.find? (fun t => t.id = i) with _ | da <;>
    rw [h1, h2] at hops
  · -- id nowhere: contradicts the hypothesis
    exfalso
    rcases hi with ⟨t, ht, hti⟩ | ⟨t, ht, hti⟩
    · exact absurd (by simpa using hti) (by simpa using List.find?_eq_none.mp h1 t ht)
    · exact absurd (by simpa using hti) (by simpa using List.find?_eq_none.mp h2 t ht)
  · -- only deployed has the id: one create-on-local op
    obtain ⟨hdaB, hdai⟩ := find?_id_mem_and_id B i da h2
    obtain ⟨pre, post, hsp, hpre, hpost⟩ :=
      filter_singleton_split _ (syncTwoWayPlan parse A B) _ hops
    have hb' : da ∈ (applyPlan clock fresh 0 (syncTwoWayPlan parse A B)
        (A, B)).2 := by
      apply mem_snd_applyPlan clock fresh _ 0 (A, B) da hdaB
      intro op' hop' htgt _ hctr
      have heq : op' = ⟨Target.local_, OpKind.create, da⟩ :=
        eq_of_mem_opsFor_singleton _ i _ op' hops hop' (by rw [hctr, hdai])
      rw [heq] at htgt
      cases htgt
    have hstep : (⟨da.id, da.content, da.completed, clock pre.length,
          clock pre.length⟩ : Todo)
        ∈ (applyOp (clock pre.length) (fresh pre.length)
            (applyPlan clock fresh 0 pre (A, B))
            ⟨Target.local_, OpKind.create, da⟩).1 := by
      show _ ∈ backendCreate (clock pre.length) (fresh pre.length)
        (applyPlan clock fresh 0 pre (A, B)).1 da
      have := mem_backendCreate (clock pre.length) (fresh pre.length)
        (applyPlan clock fresh 0 pre (A, B)).1 da
      rwa [if_neg (hidB da hdaB)] at this
    have ha' : (⟨da.id, da.content, da.completed, clock pre.length,
          clock pre.length⟩ : Todo)
        ∈ (applyPlan clock fresh 0 (syncTwoWayPlan parse A B) (A, B)).1 := by
      rw [hsp, applyPlan_split]
      apply mem_fst_applyPlan clock fresh post _ _ _ hstep
      intro op' hop' _ _ hctr
      exact not_id_of_opsFor_nil post i hpost op' hop'
        (by simpa [hdai] using hctr)
    exact ⟨_, ha', da, hb', hdai, hdai, rfl, rfl⟩
  · -- only local has the id: one create-on-deployed op
    obtain ⟨hlaA, hlai⟩ := find?_id_mem_and_id A i la h1
    obtain ⟨pre, post, hsp, hpre, hpost⟩ :=
      filter_singleton_split _ (syncTwoWayPlan parse A B) _ hops
    have ha' : la ∈ (applyPlan clock fresh 0 (syncTwoWayPlan parse A B)
        (A, B)).1 := by
      apply mem_fst_applyPlan clock fresh _ 0 (A, B) la hlaA
      intro op' hop' htgt _ hctr
      have heq : op' = ⟨Target.deployed, OpKind.create, la⟩ :=
        eq_of_mem_opsFor_singleton _ i _ op' hops hop' (by rw [hctr, hlai])
      rw [heq] at htgt
      cases htgt
    have hstep : (⟨la.id, la.content, la.completed, clock pre.length,
          clock pre.length⟩ : Todo)
        ∈ (applyOp (clock pre.length) (fresh pre.length)
            (applyPlan clock fresh 0 pre (A, B))
            ⟨Target.deployed, OpKind.create, la⟩).2 := by
      show _ ∈ backendCreate (clock pre.length) (fresh pre.length)
        (applyPlan clock fresh 0 pre (A, B)).2 la
      have := mem_backendCreate (clock pre.length) (fresh pre.length)
        (applyPlan clock fresh 0 pre (A, B)).2 la
      rwa [if_neg (hidA la hlaA)] at this
    have hb' : (⟨la.id, la.content, la.completed, clock pre.length,
          clock pre.length⟩ : Todo)
        ∈ (applyPlan clock fresh 0 (syncTwoWayPlan parse A B) (A, B)).2 := by
      rw [hsp, applyPlan_split]
      apply mem_snd_applyPlan clock fresh post _ _ _ hstep
      intro op' hop' _ _ hctr
      exact not_id_of_opsFor_nil post i hpost op' hop'
        (by simpa [hlai] using hctr)
    exact ⟨la, ha', _, hb', hlai, hlai, rfl, rfl⟩
  · -- common id: one update op toward the LWW winner
    obtain ⟨hlaA, hlai⟩ := find?_id_mem_and_id A i la h1
    obtain ⟨hdaB, hdai⟩ := find?_id_mem_and_id B i da h2
    dsimp only at hops
    rcases hcomm la hlaA da hdaB (hlai.trans hdai.symm) with hgt | hgt
    · rw [if_pos hgt] at hops
      obtain ⟨pre, post, hsp, hpre, hpost⟩ :=
        filter_singleton_split _ (syncTwoWayPlan parse A B) _ hops
      have ha' : la ∈ (applyPlan clock fresh 0 (syncTwoWayPlan parse A B)
          (A, B)).1 := by
        apply mem_fst_applyPlan clock fresh _ 0 (A, B) la hlaA
        intro op' hop' htgt _ hctr
        have heq : op' = ⟨Target.deployed, OpKind.update, la⟩ :=
          eq_of_mem_opsFor_singleton _ i _ op' hops hop' (by rw [hctr, hlai])
        rw [heq] at htgt
        cases htgt
      have hdast : da ∈ (applyPlan clock fresh 0 pre (A, B)).2 := by
        apply mem_snd_applyPlan clock fresh pre 0 (A, B) da hdaB
        intro op' hop' _ _ hctr
        exact not_id_of_opsFor_nil pre i hpre op' hop'
          (by simpa [hdai] using hctr)
      have hstep : (⟨da.id, la.content, la.completed, da.createdAt,
            clock pre.length⟩ : Todo)
          ∈ (applyOp (clock pre.length) (fresh pre.length)
              (applyPlan clock fresh 0 pre (A, B))
              ⟨Target.deployed, OpKind.update, la⟩).2 := by
        show _ ∈ backendUpdate (clock pre.length)
          (applyPlan clock fresh 0 pre (A, B)).2 la
        exact mem_backendUpdate (clock pre.length) _ la da hdast
          (hdai.trans hlai.symm)
      have hb' : (⟨da.id, la.content, la.completed, da.createdAt,
            clock pre.length⟩ : Todo)
          ∈ (applyPlan clock fresh 0 (syncTwoWayPlan parse A B) (A, B)).2 := by
        rw [hsp, applyPlan_split]
        apply mem_snd_applyPlan clock fresh post _ _ _ hstep
        intro op' hop' _ _ hctr
        exact not_id_of_opsFor_nil post i hpost op' hop'
          (by simpa [hdai] using hctr)
      exact ⟨la, ha', _, hb', hlai, hdai, rfl, rfl⟩
    · have hfalse : jsGt (parse la.updatedAt) (parse da.updatedAt) = false :=
        jsGt_asymm _ _ hgt
      rw [if_neg (by simp [hfalse]), if_pos hgt] at hops
      obtain ⟨pre, post, hsp, hpre, hpost⟩ :=
        filter_singleton_split _ (syncTwoWayPlan parse A B) _ hops
      have hb' : da ∈ (applyPlan clock fresh 0 (syncTwoWayPlan parse A B)
          (A, B)).2 := by
        apply mem_snd_applyPlan clock fresh _ 0 (A, B) da hdaB
        intro op' hop' htgt _ hctr
        have heq : op' = ⟨Target.local_, OpKind.update, da⟩ :=
          eq_of_mem_opsFor_singleton _ i _ op' hops hop' (by rw [hctr, hdai])
        rw [heq] at htgt
        cases htgt
      have hlast : la ∈ (applyPlan clock fresh 0 pre (A, B)).1 := by
        apply mem_fst_applyPlan clock fresh pre 0 (A, B) la hlaA
        intro op' hop' _ _ hctr
        exact not_id_of_opsFor_nil pre i hpre op' hop'
          (by simpa [hlai] using hctr)
      have hstep : (⟨la.id, da.content, da.completed, la.createdAt,
            clock pre.length⟩ : Todo)
          ∈ (applyOp (clock pre.length) (fresh pre.length)
              (applyPlan clock fresh 0 pre (A, B))
              ⟨Target.local_, OpKind.update, da⟩).1 := by
        show _ ∈ backendUpdate (clock pre.length)
          (applyPlan clock fresh 0 pre (A, B)).1 da
        exact mem_backendUpdate (clock pre.length) _ da la hlast
          (hlai.trans hdai.symm)
      have ha' : (⟨la.id, da.content, da.completed, la.createdAt,
            clock pre.length⟩ : Todo)
          ∈ (applyPlan clock fresh 0 (syncTwoWayPlan parse A B) (A, B)).1 := by
        rw [hsp, applyPlan_split]
        apply mem_fst_applyPlan clock fresh post _ _ _ hstep
        intro op' hop' _ _ hctr
        exact not_id_of_opsFor_nil post i hpost op' hop'
          (by simpa [hlai] using hctr)
      exact ⟨_, ha', da, hb', hlai, hdai, rfl, rfl⟩

/-!
### Remaining support lemmas
-/

theorem jsGt_self_false (x : Option Int) : jsGt x x = false := by
  rcases x with _ | a <;> simp [jsGt]

theorem eq_nil_of_opsFor_nil (ops : List Op)
    (h : ∀ i, opsFor ops i = []) : ops = [] := by
  cases ops with
  | nil => rfl
  | cons op rest =>
    exfalso
    have hmem := mem_opsFor (op :: rest) op.record.id op (by simp) rfl
    rw [h op.record.id] at hmem
    simp at hmem

theorem executeAttempts_snd_le (attempts : Nat → Bool) (noRetry : Bool) :
    ∀ (remaining idx : Nat),
      (executeAttempts attempts noRetry remaining idx).2
        ≤ idx + remaining + 1 := by
  intro remaining
  induction remaining with
  | zero =>
    intro idx
    rw [executeAttempts]
    by_cases h : attempts idx = true <;> simp [h]
  | succ r ih =>
    intro idx
    rw [executeAttempts]
    by_cases h : attempts idx = true
    · simp [h]
    · simp only [h]
      by_cases hn : noRetry = true
      · simp [hn]
      · have hnr : noRetry = false := by
          cases noRetry
          · rfl
          · exact absurd rfl hn
        subst hnr
        simp only [Bool.false_eq_true, if_false]
        have := ih (idx + 1)
        omega

theorem executeAttempts_all_fail (attempts : Nat → Bool)
    (hall : ∀ k, attempts k = false) :
    ∀ (remaining idx : Nat),
      executeAttempts attempts false remaining idx
        = (false, idx + remaining + 1) := by
  intro remaining
  induction remaining with
  | zero => intro idx; rw [executeAttempts]; simp [hall idx]
  | succ r ih =>
    intro idx
    rw [executeAttempts]
    simp only [hall idx, Bool.false_eq_true, if_false]
    rw [ih (idx + 1)]
    congr 1
    omega

theorem executeAttempts_first_success (attempts : Nat → Bool) :
    ∀ (remaining idx k : Nat), idx ≤ k → k ≤ idx + remaining →
      (∀ j, idx ≤ j → j < k → attempts j = false) → attempts k = true →
      executeAttempts attempts false remaining idx = (true, k + 1) := by
  intro remaining
  induction remaining with
  | zero =>
    intro idx k h1 h2 _ hk
    have : k = idx := by omega
    subst this
    rw [executeAttempts]
    simp [hk]
  | succ r ih =>
    intro idx k h1 h2 hfail hk
    rw [executeAttempts]
    by_cases hidx : k = idx
    · subst hidx
      simp [hk]
    · have hf : attempts idx = false := hfail idx (le_refl idx) (by omega)
      simp only [hf, Bool.false_eq_true, if_false]
      exact ih (idx + 1) k (by omega) (by omega)
        (fun j hj1 hj2 => hfail j (by omega) hj2) hk

theorem executeAttempts_snd_ge (attempts : Nat → Bool) (noRetry : Bool) :
    ∀ (remaining idx : Nat),
      idx + 1 ≤ (executeAttempts attempts noRetry remaining idx).2 := by
  intro remaining
  induction remaining with
  | zero =>
    intro idx
    rw [executeAttempts]
    by_cases h : attempts idx = true <;> simp [h]
  | succ r ih =>
    intro idx
    rw [executeAttempts]
    by_cases h : attempts idx = true
    · simp [h]
    · simp only [h, Bool.false_eq_true, if_false]
      by_cases hn : noRetry = true
      · simp [hn]
      · have hnr : noRetry = false := by
          cases noRetry
          · rfl
          · exact absurd rfl hn
        subst hnr
        simp only [Bool.false_eq_true, if_false]
        have := ih (idx + 1)
        omega

theorem executeSleepsLoop_replicate (attempts : Nat → Bool) (delay : Nat) :
    ∀ (remaining idx : Nat),
      executeSleepsLoop attempts false delay remaining idx
        = List.replicate
            ((executeAttempts attempts false remaining idx).2 - idx - 1)
            delay := by
  intro remaining
  induction remaining with
  | zero =>
    intro idx
    rw [executeSleepsLoop, executeAttempts]
    by_cases h : attempts idx = true <;> simp [h]
  | succ r ih =>
    intro idx
    rw [executeSleepsLoop, executeAttempts]
    by_cases h : attempts idx = true
    · simp [h]
    · simp only [h, Bool.false_eq_true, if_false]
      rw [ih (idx + 1)]
      have hge := executeAttempts_snd_ge attempts false r (idx + 1)
      have hcount : (executeAttempts attempts false r (idx + 1)).2 - idx - 1
          = ((executeAttempts attempts false r (idx + 1)).2 - (idx + 1) - 1)
            + 1 := by
        omega
      rw [hcount, List.replicate_succ]

theorem applyOps_completed (outcome : Nat → OpOutcome) :
    ∀ (ops : List Op) (idx : Nat),
      (∀ k, (hk : k < ops.length) →
        (ops.get ⟨k, hk⟩).target = Target.deployed →
        outcome (idx + k) ≠ OpOutcome.transportFail) →
      applyOps outcome idx ops
        = RunOutcome.completed (expectedResults outcome idx ops) := by
  intro ops
  induction ops with
  | nil => intro idx _; rfl
  | cons op rest ih =>
    intro idx hsafe
    have h0 : op.target = Target.deployed →
        outcome idx ≠ OpOutcome.transportFail := by
      have := hsafe 0 (by simp)
      simpa using this
    rcases hcl : classifyOp op.target (outcome idx) with _ | r
    · exfalso
      rcases htgt : op.target with _ | _ <;>
        rcases hoc : outcome idx with _ | _ | _ <;>
        rw [htgt, hoc] at hcl <;> simp [classifyOp] at hcl
      exact h0 htgt hoc
    · have hrest : applyOps outcome (idx + 1) rest
          = RunOutcome.completed (expectedResults outcome (idx + 1) rest) := by
        refine ih (idx + 1) (fun k hk htgt => ?_)
        have h1 := hsafe (k + 1) (by simpa using Nat.succ_lt_succ hk)
        have h2 : (rest.get ⟨k, hk⟩).target = Target.deployed →
            outcome (idx + (k + 1)) ≠ OpOutcome.transportFail := by
          simpa using h1
        have h3 := h2 htgt
        have h4 : idx + 1 + k = idx + (k + 1) := by omega
        rw [h4]
        exact h3
      rw [applyOps, expectedResults, hcl, hrest]

theorem target_syncLocalToDeployedPlan (parse : String → Option Int)
    (A B : List Todo) :
    ∀ op ∈ syncLocalToDeployedPlan parse A B,
      op.target = Target.deployed := by
  intro op hop
  simp only [syncLocalToDeployedPlan] at hop
  obtain ⟨lt, _, hg⟩ := List.mem_filterMap.mp hop
  rcases h : mapGet (buildMap B) lt.id with _ | dt <;> rw [h] at hg <;>
    dsimp only at hg
  · injection hg with h2
    rw [← h2]
  · split_ifs at hg
    injection hg with h2
    rw [← h2]

theorem target_syncDeployedToLocalPlan (parse : String → Option Int)
    (A B : List Todo) :
    ∀ op ∈ syncDeployedToLocalPlan parse A B,
      op.target = Target.local_ := by
  intro op hop
  simp only [syncDeployedToLocalPlan] at hop
  obtain ⟨dt, _, hg⟩ := List.mem_filterMap.mp hop
  rcases h : mapGet (buildMap A) dt.id with _ | lt <;> rw [h] at hg <;>
    dsimp only at hg
  · injection hg with h2
    rw [← h2]
  · split_ifs at hg
    injection hg with h2
    rw [← h2]

theorem syncTwoWayPlan_nil_of_matching (parse : String → Option Int)
    (A B : List Todo) (hA : (A.map Todo.id).Nodup)
    (hB : (B.map Todo.id).Nodup)
    (hAB : ∀ a ∈ A, ∃ b ∈ B, b.id = a.id ∧ b.updatedAt = a.updatedAt)
    (hBA : ∀ b ∈ B, ∃ a ∈ A, a.id = b.id ∧ a.updatedAt = b.updatedAt) :
    syncTwoWayPlan parse A B = [] := by
  apply eq_nil_of_opsFor_nil
  intro i
  rw [opsFor_syncTwoWayPlan parse A B hA hB i]
  rcases h1 : A.find? (fun t => t.id = i) with _ | la <;>
    rcases h2 : B.find? (fun t => t.id = i) with _ | da <;>
    rw [h1, h2]
  · exfalso
    obtain ⟨hdaB, hdai⟩ := find?_id_mem_and_id B i da h2
    obtain ⟨a, haA, hai, _⟩ := hBA da hdaB
    have := List.find?_eq_none.mp h1 a haA
    exact this (by simpa using hai.trans hdai)
  · exfalso
    obtain ⟨hlaA, hlai⟩ := find?_id_mem_and_id A i la h1
    obtain ⟨b, hbB, hbi, _⟩ := hAB la hlaA
    have := List.find?_eq_none.mp h2 b hbB
    exact this (by simpa using hbi.trans hlai)
  · obtain ⟨hlaA, hlai⟩ := find?_id_mem_and_id A i la h1
    obtain ⟨hdaB, hdai⟩ := find?_id_mem_and_id B i da h2
    obtain ⟨b, hbB, hbi, hbu⟩ := hAB la hlaA
    have hbda : b = da := by
      have hfb := find?_id_eq_some_of_mem B hB b hbB
      rw [hbi, hlai] at hfb
      rw [hfb] at h2
      exact Option.some.inj h2
    have hstamp : parse da.updatedAt = parse la.updatedAt := by
      rw [← hbda, hbu]
    simp [hstamp, jsGt_self_false]

theorem jsGt_none_left (x : Option Int) : jsGt none x = false := by
  cases x <;> rfl

theorem jsGt_none_right (x : Option Int) : jsGt x none = false := by
  cases x <;> rfl

theorem expectedResults_length (outcome : Nat → OpOutcome) :
    ∀ (ops : List Op) (idx : Nat),
      (expectedResults outcome idx ops).length = ops.length := by
  intro ops
  induction ops with
  | nil => intro idx; rfl
  | cons op rest ih =>
    intro idx
    rw [expectedResults]
    simp [ih (idx + 1)]

/-!
### The claims
-/

/-- C1 counterexample: the claim as stated is false on the code.  With
`A = [{id 1, content x, updatedAt t2}]`, `B = [{id 1, content y, updatedAt
t1}]` (t2 > t1) and the deployed replica's write clock at `t3`, after
`apply(diff(A,B))` the two replicas hold `updatedAt` `t2` and `t3`
respectively — not equal — because the update payload carries no
`updatedAt`, so the target stamps its own; consequently a second run's
plan is not empty (it now copies B back over A). -/
theorem c1_counterexample :
    ((applyPlan (fun _ => "t3") (fun _ => "f") 0
        (syncTwoWayPlan sampleParse [todoL1] [todoD1])
        ([todoL1], [todoD1])).1.map Todo.updatedAt = ["t2"]
      ∧ (applyPlan (fun _ => "t3") (fun _ => "f") 0
        (syncTwoWayPlan sampleParse [todoL1] [todoD1])
        ([todoL1], [todoD1])).2.map Todo.updatedAt = ["t3"])
    ∧ ¬ syncTwoWayPlan sampleParse
        (applyPlan (fun _ => "t3") (fun _ => "f") 0
          (syncTwoWayPlan sampleParse [todoL1] [todoD1])
          ([todoL1], [todoD1])).1
        (applyPlan (fun _ => "t3") (fun _ => "f") 0
          (syncTwoWayPlan sampleParse [todoL1] [todoD1])
          ([todoL1], [todoD1])).2 = [] := by
  decide

/-- C1 (amended): after `apply(diff(A,B))` is executed against the faithful
accessors, every id present in either replica is present in both, and —
provided ids are unique per replica, non-empty, and every common id has a
strict LWW winner — the two copies agree on `content` and `completed`.
They need not agree on `updatedAt` (the target replica stamps its own
write clock), and a second run may therefore produce a non-empty plan. -/
theorem c1_converged_fields
    (parse : String → Option Int) (clock fresh : Nat → String)
    (A B : List Todo)
    (hA : (A.map Todo.id).Nodup) (hB : (B.map Todo.id).Nodup)
    (hidA : ∀ t ∈ A, ¬ t.id = "") (hidB : ∀ t ∈ B, ¬ t.id = "")
    (hcomm : ∀ la ∈ A, ∀ da ∈ B, la.id = da.id →
      jsGt (parse la.updatedAt) (parse da.updatedAt) = true ∨
      jsGt (parse da.updatedAt) (parse la.updatedAt) = true)
    (i : String)
    (hi : (∃ t ∈ A, t.id = i) ∨ (∃ t ∈ B, t.id = i)) :
    ∃ a' ∈ (applyPlan clock fresh 0 (syncTwoWayPlan parse A B) (A, B)).1,
      ∃ b' ∈ (applyPlan clock fresh 0 (syncTwoWayPlan parse A B) (A, B)).2,
        a'.id = i ∧ b'.id = i ∧ a'.content = b'.content ∧
        a'.completed = b'.completed :=
  convergedFields_after_apply parse clock fresh A B hA hB hidA hidB hcomm
    i hi

/-- C1 witness: the amended convergence theorem applied at the concrete
one-record replicas. -/
theorem c1_witness :
    (([todoL1].map Todo.id).Nodup ∧ ([todoD1].map Todo.id).Nodup)
    ∧ (∀ t ∈ [todoL1], ¬ t.id = "") ∧ (∀ t ∈ [todoD1], ¬ t.id = "")
    ∧ (∀ la ∈ [todoL1], ∀ da ∈ [todoD1], la.id = da.id →
        jsGt (sampleParse la.updatedAt) (sampleParse da.updatedAt) = true ∨
        jsGt (sampleParse da.updatedAt) (sampleParse la.updatedAt) = true)
    ∧ ((∃ t ∈ [todoL1], t.id = "1") ∨ (∃ t ∈ [todoD1], t.id = "1"))
    ∧ (∃ a' ∈ (applyPlan (fun _ => "t3") (fun _ => "f") 0
          (syncTwoWayPlan sampleParse [todoL1] [todoD1])
          ([todoL1], [todoD1])).1,
        ∃ b' ∈ (applyPlan (fun _ => "t3") (fun _ => "f") 0
          (syncTwoWayPlan sampleParse [todoL1] [todoD1])
          ([todoL1], [todoD1])).2,
          a'.id = "1" ∧ b'.id = "1" ∧ a'.content = b'.content ∧
          a'.completed = b'.completed) :=
  ⟨⟨by decide, by decide⟩, by decide, by decide, by decide, by decide,
    c1_converged_fields sampleParse (fun _ => "t3") (fun _ => "f")
      [todoL1] [todoD1] (by decide) (by decide) (by decide) (by decide)
      (by decide) "1" (by decide)⟩

/-- C2: for a record id present in both replicas, when the local copy's
parsed `updatedAt` is strictly greater the two-way plan holds exactly one
operation for that id — update the deployed replica with the local record —
and symmetrically when the deployed copy's is strictly greater.  (`jsGt` is
the strict millisecond comparison; it is false whenever either side fails
to parse.) -/
theorem c2_newer_wins (parse : String → Option Int) (A B : List Todo)
    (hA : (A.map Todo.id).Nodup) (hB : (B.map Todo.id).Nodup)
    (la da : Todo) (hla : la ∈ A) (hda : da ∈ B) (hid : da.id = la.id) :
    (jsGt (parse la.updatedAt) (parse da.updatedAt) = true →
      opsFor (syncTwoWayPlan parse A B) la.id
        = [⟨Target.deployed, OpKind.update, la⟩]) ∧
    (jsGt (parse da.updatedAt) (parse la.updatedAt) = true →
      opsFor (syncTwoWayPlan parse A B) la.id
        = [⟨Target.local_, OpKind.update, da⟩]) := by
  have h1 : A.find? (fun t => t.id = la.id) = some la :=
    find?_id_eq_some_of_mem A hA la hla
  have h2 : B.find? (fun t => t.id = la.id) = some da := by
    have := find?_id_eq_some_of_mem B hB da hda
    rwa [hid] at this
  constructor
  · intro hgt
    rw [opsFor_syncTwoWayPlan parse A B hA hB la.id, h1, h2]
    dsimp only
    rw [if_pos hgt]
  · intro hgt
    have hfalse := jsGt_asymm _ _ hgt
    rw [opsFor_syncTwoWayPlan parse A B hA hB la.id, h1, h2]
    dsimp only
    rw [if_neg (by simp [hfalse]), if_pos hgt]

/-- C2 witness: the newer-wins theorem at the concrete one-record
replicas (local `t2` beats deployed `t1`). -/
theorem c2_witness :
    (todoL1 ∈ [todoL1] ∧ todoD1 ∈ [todoD1] ∧ todoD1.id = todoL1.id
      ∧ jsGt (sampleParse todoL1.updatedAt) (sampleParse todoD1.updatedAt)
          = true)
    ∧ opsFor (syncTwoWayPlan sampleParse [todoL1] [todoD1]) todoL1.id
        = [⟨Target.deployed, OpKind.update, todoL1⟩] :=
  ⟨⟨by decide, by decide, by decide, by decide⟩,
    (c2_newer_wins sampleParse [todoL1] [todoD1] (by decide) (by decide)
      todoL1 todoD1 (by decide) (by decide) (by decide)).1 (by decide)⟩

/-- C3: equal timestamps never trigger a write: a record id present in
both replicas with equal parsed `updatedAt` generates no operation at all
(even when `content`/`completed` differ), and when the two collections
consist of pairwise identical records (same id, same `updatedAt`) the
whole two-way plan is empty. -/
theorem c3_no_op_on_equality (parse : String → Option Int)
    (A B : List Todo) (hA : (A.map Todo.id).Nodup)
    (hB : (B.map Todo.id).Nodup) :
    (∀ la ∈ A, ∀ da ∈ B, la.id = da.id →
      parse la.updatedAt = parse da.updatedAt →
      opsFor (syncTwoWayPlan parse A B) la.id = []) ∧
    ((∀ a ∈ A, ∃ b ∈ B, b.id = a.id ∧ b.updatedAt = a.updatedAt) →
      (∀ b ∈ B, ∃ a ∈ A, a.id = b.id ∧ a.updatedAt = b.updatedAt) →
      syncTwoWayPlan parse A B = []) := by
  constructor
  · intro la hla da hda hid hstamp
    have h1 : A.find? (fun t => t.id = la.id) = some la :=
      find?_id_eq_some_of_mem A hA la hla
    have h2 : B.find? (fun t => t.id = la.id) = some da := by
      have := find?_id_eq_some_of_mem B hB da hda
      rwa [← hid] at this
    rw [opsFor_syncTwoWayPlan parse A B hA hB la.id, h1, h2]
    simp [hstamp, jsGt_self_false]
  · intro hAB hBA
    exact syncTwoWayPlan_nil_of_matching parse A B hA hB hAB hBA

/-- C3 witness: two replicas holding the same id with the same `updatedAt`
but different `content`/`completed`: no operation is generated and the
whole plan is empty. -/
theorem c3_witness :
    (todoL1 ∈ [todoL1] ∧ todoD1sameStamp ∈ [todoD1sameStamp]
      ∧ todoL1.id = todoD1sameStamp.id
      ∧ sampleParse todoL1.updatedAt = sampleParse todoD1sameStamp.updatedAt)
    ∧ opsFor (syncTwoWayPlan sampleParse [todoL1] [todoD1sameStamp])
        todoL1.id = []
    ∧ syncTwoWayPlan sampleParse [todoL1] [todoD1sameStamp] = [] :=
  ⟨⟨by decide, by decide, by decide, by decide⟩,
    (c3_no_op_on_equality sampleParse [todoL1] [todoD1sameStamp]
      (by decide) (by decide)).1 todoL1 (by decide) todoD1sameStamp
      (by decide) (by decide) (by decide),
    (c3_no_op_on_equality sampleParse [todoL1] [todoD1sameStamp]
      (by decide) (by decide)).2 (by decide) (by decide)⟩

/-- C4 counterexample: the claim as stated is false on the code.  The
create payload built for a record existing only on A (lines 374–384)
carries neither `createdAt` nor `updatedAt`: the `variables.input` object
holds only `content`, `completed` and `id`. -/
theorem c4_counterexample :
    ¬ ("createdAt" ∈ fieldNames (createTodoInput todoOnlyA)
      ∨ "updatedAt" ∈ fieldNames (createTodoInput todoOnlyA)) := by
  decide

/-- C4 (amended): a record existing only on A yields exactly one
create-on-B operation for its id, and the transmitted payload carries A's
`content`, `completed` and `id` — but not `createdAt` or `updatedAt`. -/
theorem c4_creation_propagation (parse : String → Option Int)
    (A B : List Todo) (hA : (A.map Todo.id).Nodup)
    (hB : (B.map Todo.id).Nodup) (la : Todo) (hla : la ∈ A)
    (habsent : ∀ t ∈ B, ¬ t.id = la.id) (hid : la.id ≠ "") :
    opsFor (syncTwoWayPlan parse A B) la.id
      = [⟨Target.deployed, OpKind.create, la⟩]
    ∧ fieldNames (createTodoInput la) = ["content", "completed", "id"] := by
  constructor
  · have h1 : A.find? (fun t => t.id = la.id) = some la :=
      find?_id_eq_some_of_mem A hA la hla
    have h2 : B.find? (fun t => t.id = la.id) = none := by
      rw [List.find?_eq_none]
      intro t ht
      simpa using habsent t ht
    rw [opsFor_syncTwoWayPlan parse A B hA hB la.id, h1, h2]
  · simp [createTodoInput, fieldNames, hid]

/-- C4 witness: the amended creation-propagation theorem at a concrete
one-record replica against an empty one. -/
theorem c4_witness :
    (todoOnlyA ∈ [todoOnlyA] ∧ (∀ t ∈ ([] : List Todo), ¬ t.id = todoOnlyA.id)
      ∧ todoOnlyA.id ≠ "")
    ∧ opsFor (syncTwoWayPlan sampleParse [todoOnlyA] []) todoOnlyA.id
        = [⟨Target.deployed, OpKind.create, todoOnlyA⟩]
    ∧ fieldNames (createTodoInput todoOnlyA)
        = ["content", "completed", "id"] :=
  ⟨⟨by decide, by decide, by decide⟩,
    (c4_creation_propagation sampleParse [todoOnlyA] [] (by decide)
      (by decide) todoOnlyA (by decide) (by decide) (by decide)).1,
    (c4_creation_propagation sampleParse [todoOnlyA] [] (by decide)
      (by decide) todoOnlyA (by decide) (by decide) (by decide)).2⟩

/-- C5: at the failing input — the local replica's list transport fails
(`curl` returns null / the sandbox is unreachable) while the deployed
replica holds one record — `listLocalTodos` degrades the failure to the
empty list and the run proceeds to plan a create against the local
replica, instead of aborting with zero writes as the claim (and the
script's own `Cannot proceed` message) require. -/
theorem c5_read_failure_still_writes :
    listLocalTodos none = []
    ∧ runTwoWayPlan sampleParse none (some [todoD1])
        = [⟨Target.local_, OpKind.create, todoD1⟩] := by
  decide

/-- C6 counterexample: the claim as stated is false on the code.  A
deployed-targeted update whose transport call fails (after the retries are
exhausted) reaches the `process.exit(1)` branch of `execute` (line 104,
via `executeGraphQL`, which passes no `ignoreError`): the run is aborted
with the failure of record `2` not recorded and record `3` never
attempted. -/
theorem c6_counterexample :
    applyOps (fun _ => OpOutcome.transportFail) 0
      [⟨Target.deployed, OpKind.update, ⟨"2", "a", false, "c", "t1"⟩⟩,
       ⟨Target.deployed, OpKind.update, ⟨"3", "b", false, "c", "t1"⟩⟩]
      = RunOutcome.exited [] := by
  decide

/-- C6 (amended): provided no deployed-targeted operation fails at the
transport level, the apply loop is partial-failure tolerant: every
operation is attempted, each per-record result (success or recorded
failure) is determined by that operation's own outcome alone, and the run
completes with one result per operation. -/
theorem c6_partial_failure_isolated (outcome : Nat → OpOutcome)
    (ops : List Op)
    (hsafe : ∀ k, (hk : k < ops.length) →
      (ops.get ⟨k, hk⟩).target = Target.deployed →
      outcome k ≠ OpOutcome.transportFail) :
    applyOps outcome 0 ops
      = RunOutcome.completed (expectedResults outcome 0 ops)
    ∧ (expectedResults outcome 0 ops).length = ops.length := by
  constructor
  · refine applyOps_completed outcome ops 0 (fun k hk ht => ?_)
    have := hsafe k hk ht
    simpa using this
  · exact expectedResults_length outcome ops 0

/-- C6 witness: the spec's own scenario — the update of record `2` fails
(at the GraphQL level) and the update of record `3` succeeds; the run
completes with one recorded failure and one success. -/
theorem c6_witness :
    (∀ k, (hk : k < ([⟨Target.deployed, OpKind.update,
          ⟨"2", "a", false, "c", "t1"⟩⟩,
        ⟨Target.deployed, OpKind.update,
          ⟨"3", "b", false, "c", "t1"⟩⟩] : List Op).length) →
      (([⟨Target.deployed, OpKind.update, ⟨"2", "a", false, "c", "t1"⟩⟩,
        ⟨Target.deployed, OpKind.update,
          ⟨"3", "b", false, "c", "t1"⟩⟩] : List Op).get ⟨k, hk⟩).target
          = Target.deployed →
      sampleOutcome k ≠ OpOutcome.transportFail)
    ∧ applyOps sampleOutcome 0
        [⟨Target.deployed, OpKind.update, ⟨"2", "a", false, "c", "t1"⟩⟩,
         ⟨Target.deployed, OpKind.update, ⟨"3", "b", false, "c", "t1"⟩⟩]
        = RunOutcome.completed
            [("2", OpResult.failedRecorded), ("3", OpResult.success)] :=
  ⟨by decide,
    by
      have h := (c6_partial_failure_isolated sampleOutcome
        [⟨Target.deployed, OpKind.update, ⟨"2", "a", false, "c", "t1"⟩⟩,
         ⟨Target.deployed, OpKind.update, ⟨"3", "b", false, "c", "t1"⟩⟩]
        (by decide)).1
      rw [h]
      decide⟩

/-- C7: a `local-to-deployed` run only ever invokes writes against the
deployed replica, and a `deployed-to-local` run only ever invokes writes
against the local replica — the source side is never written. -/
theorem c7_mode_restriction (parse : String → Option Int)
    (A B : List Todo) :
    (∀ op ∈ syncLocalToDeployedPlan parse A B,
      op.target = Target.deployed) ∧
    (∀ op ∈ syncDeployedToLocalPlan parse A B,
      op.target = Target.local_) :=
  ⟨target_syncLocalToDeployedPlan parse A B,
    target_syncDeployedToLocalPlan parse A B⟩

/-- C7 witness: on a two-way-divergent dataset the `local-to-deployed`
plan's single operation targets the deployed replica. -/
theorem c7_witness :
    (⟨Target.deployed, OpKind.update, todoL1⟩ : Op)
      ∈ syncLocalToDeployedPlan sampleParse [todoL1] [todoD1]
    ∧ (⟨Target.deployed, OpKind.update, todoL1⟩ : Op).target
        = Target.deployed :=
  ⟨by decide,
    (c7_mode_restriction sampleParse [todoL1] [todoD1]).1
      ⟨Target.deployed, OpKind.update, todoL1⟩ (by decide)⟩

/-- C8: with the default options, `execute` makes at most `1 + 3`
underlying invocations (the configured `maxRetries` default is 3), sleeps
1000 ms between consecutive attempts, treats a persistent failure as
failed after exactly the 3 retries, and stops retrying at the first
success. -/
theorem c8_bounded_retry (attempts : Nat → Bool) :
    (({} : ExecOptions).effMaxRetries = 3
      ∧ ({} : ExecOptions).effRetryDelay = 1000)
    ∧ (execute {} attempts).attemptsUsed ≤ 4
    ∧ executeSleeps {} attempts
        = List.replicate ((execute {} attempts).attemptsUsed - 1) 1000
    ∧ ((∀ k, attempts k = false) →
        execute {} attempts = ExecResult.exited 4)
    ∧ (∀ k, k ≤ 3 → (∀ j, j < k → attempts j = false) →
        attempts k = true →
        execute {} attempts = ExecResult.ok (k + 1)) := by
  have hused : ∀ b n, executeAttempts attempts false 3 0 = (b, n) →
      execute {} attempts
        = (if b then ExecResult.ok n else ExecResult.exited n) := by
    intro b n h
    show (match executeAttempts attempts false 3 0 with
      | (true, n) => ExecResult.ok n
      | (false, n) =>
        if ({} : ExecOptions).ignoreError then ExecResult.nullResult n
        else if ({} : ExecOptions).exitOnErrorFalse then
          ExecResult.nullResult n
        else ExecResult.exited n) = _
    rw [h]
    cases b <;> rfl
  refine ⟨⟨rfl, rfl⟩, ?_, ?_, ?_, ?_⟩
  · rcases h : executeAttempts attempts false 3 0 with ⟨b, n⟩
    have hle := executeAttempts_snd_le attempts false 3 0
    rw [h] at hle
    rw [hused b n h]
    cases b <;> simpa [ExecResult.attemptsUsed] using hle
  · rcases h : executeAttempts attempts false 3 0 with ⟨b, n⟩
    have hrep := executeSleepsLoop_replicate attempts 1000 3 0
    rw [h] at hrep
    have hsl : executeSleeps {} attempts
        = executeSleepsLoop attempts false 1000 3 0 := rfl
    rw [hsl, hrep, hused b n h]
    cases b <;> rfl
  · intro hall
    have h := executeAttempts_all_fail attempts hall 3 0
    rw [hused false 4 (by simpa using h)]
    rfl
  · intro k hk hfail hsucc
    have h := executeAttempts_first_success attempts 3 0 k
      (Nat.zero_le k) (by omega) (fun j _ hj => hfail j hj) hsucc
    rw [hused true (k + 1) h]
    rfl

/-- C8 witness: a command that fails twice and succeeds on the third
attempt is retried with 1000 ms delays and ends successfully after three
invocations. -/
theorem c8_witness :
    (∀ j, j < 2 → sampleAttempts j = false) ∧ sampleAttempts 2 = true
    ∧ execute {} sampleAttempts = ExecResult.ok 3
    ∧ (execute {} sampleAttempts).attemptsUsed ≤ 4 :=
  ⟨by decide, by decide,
    ((c8_bounded_retry sampleAttempts).2.2.2.2) 2 (by decide) (by decide)
      (by decide),
    (c8_bounded_retry sampleAttempts).2.1⟩

/-- C9 counterexample: the claim as stated is false on the code.  A record
whose `updatedAt` fails to parse but which exists on only one side is not
excluded from diffing: the one-sided branches never look at the timestamp,
so it still generates a create operation (and no skipped-invalid report
exists anywhere in the script). -/
theorem c9_counterexample :
    syncTwoWayPlan (fun _ => none) [todoBadStamp] []
      = [⟨Target.deployed, OpKind.create, todoBadStamp⟩] := by
  decide

/-- C9 (amended): a record present in both replicas whose `updatedAt`
fails to parse on either side generates no operation for its id (the
`NaN` comparisons are both false) — silently, with no skipped-invalid
report; a record present on only one side is created on the other
regardless of timestamp validity. -/
theorem c9_invalid_timestamp_skipped (parse : String → Option Int)
    (A B : List Todo) (hA : (A.map Todo.id).Nodup)
    (hB : (B.map Todo.id).Nodup) (la da : Todo) (hla : la ∈ A)
    (hda : da ∈ B) (hid : la.id = da.id)
    (hbad : parse la.updatedAt = none ∨ parse da.updatedAt = none) :
    opsFor (syncTwoWayPlan parse A B) la.id = [] := by
  have h1 : A.find? (fun t => t.id = la.id) = some la :=
    find?_id_eq_some_of_mem A hA la hla
  have h2 : B.find? (fun t => t.id = la.id) = some da := by
    have := find?_id_eq_some_of_mem B hB da hda
    rwa [← hid] at this
  rw [opsFor_syncTwoWayPlan parse A B hA hB la.id, h1, h2]
  rcases hbad with h | h <;>
    simp [h, jsGt_none_left, jsGt_none_right]

/-- C9 witness: two copies of id `bad`, the local one with an unparseable
timestamp: no operation is generated for that id. -/
theorem c9_witness :
    (todoBadStamp ∈ [todoBadStamp] ∧ todoD1bad ∈ [todoD1bad]
      ∧ todoBadStamp.id = todoD1bad.id
      ∧ sampleParse todoBadStamp.updatedAt = none)
    ∧ opsFor (syncTwoWayPlan sampleParse [todoBadStamp] [todoD1bad])
        todoBadStamp.id = [] :=
  ⟨⟨by decide, by decide, by decide, by decide⟩,
    c9_invalid_timestamp_skipped sampleParse [todoBadStamp] [todoD1bad]
      (by decide) (by decide) todoBadStamp todoD1bad (by decide)
      (by decide) (by decide) (Or.inl (by decide))⟩

/-- C10: every update payload sent to either replica carries exactly the
fields `id`, `content` and `completed` — never `updatedAt` or `createdAt`
— and consequently the faithful accessor stamps the written record with
the target replica's own clock, not the source record's timestamp. -/
theorem c10_update_payload_fields (todo : Todo) :
    (fieldNames (updateDeployedTodoInput todo)
        = ["id", "content", "completed"]
      ∧ fieldNames (updateLocalTodoInput todo)
        = ["id", "content", "completed"])
    ∧ (¬ "updatedAt" ∈ fieldNames (updateDeployedTodoInput todo)
      ∧ ¬ "createdAt" ∈ fieldNames (updateDeployedTodoInput todo)
      ∧ ¬ "updatedAt" ∈ fieldNames (updateLocalTodoInput todo)
      ∧ ¬ "createdAt" ∈ fieldNames (updateLocalTodoInput todo))
    ∧ (∀ (clock : String) (st : List Todo) (r : Todo),
        r ∈ backendUpdate clock st todo → r.id = todo.id →
        r.updatedAt = clock) := by
  have hD : fieldNames (updateDeployedTodoInput todo)
      = ["id", "content", "completed"] := rfl
  have hL : fieldNames (updateLocalTodoInput todo)
      = ["id", "content", "completed"] := rfl
  refine ⟨⟨rfl, rfl⟩,
    ⟨by rw [hD]; decide, by rw [hD]; decide,
      by rw [hL]; decide, by rw [hL]; decide⟩, ?_⟩
  intro clock st r hr hid
  obtain ⟨r0, hr0, hmap⟩ := List.mem_map.mp hr
  by_cases h : r0.id = todo.id
  · rw [if_pos h] at hmap
    rw [← hmap]
  · rw [if_neg h] at hmap
    rw [← hmap] at hid
    exact absurd hid h

/-- C10 witness: updating the deployed copy of id `1` with the local
winner at deployed write time `t3` stores the target's own timestamp. -/
theorem c10_witness :
    ((⟨"1", "x", false, "c", "t3"⟩ : Todo)
        ∈ backendUpdate "t3" [todoD1] todoL1
      ∧ (⟨"1", "x", false, "c", "t3"⟩ : Todo).id = todoL1.id)
    ∧ (⟨"1", "x", false, "c", "t3"⟩ : Todo).updatedAt = "t3" :=
  ⟨⟨by decide, by decide⟩,
    (c10_update_payload_fields todoL1).2.2 "t3" [todoD1]
      ⟨"1", "x", false, "c", "t3"⟩ (by decide) (by decide)⟩

end SyncAmplifyData
